import Mathlib

/-!
Shallow embedding of the core of the `portfinder` repository (Go), for
verifying its natural-language specification.

Modelling conventions, used throughout:

* Go strings are Lean `String`s; all string operations from the Go standard
  library that the code uses (`strings.Split`, `strings.Fields`,
  `strings.Contains`, `strings.TrimSpace`, `strings.Index`,
  `strconv.Atoi`, ...) are re-implemented below on `List Char` so that
  concrete evaluations reduce in the kernel.  All inputs of interest are
  ASCII, where Go byte indices and Lean character indices agree.
* `time.Time` values are modelled as `Nat` timestamps (seconds); `0` is the
  Go zero value `time.Time{}` (`IsZero`), and `time.Now()` is a parameter
  `now` of the environment (callers assume `now ≠ 0`, which always holds of
  a real clock).
* Every external effect (running `ss` / `netstat` / `lsof` / `ps` /
  `wmic`, reading `/proc` files, `os.Stat`) is a field of an explicit
  environment record: `none` models the call returning an error, `some v`
  models success with payload `v`.  The functions below are direct
  transcriptions of the Go control flow over these environments.
* Filesystem paths handed to `detectProject` are modelled by `FPath`:
  either the empty string or a cleaned absolute path given by its list of
  segments (`/a/b` is `FPath.abs ["a", "b"]`, `/` is `FPath.abs []`).
  The working directories the code passes in (`/proc/<pid>/cwd` readlink
  results, `lsof` cwd output) are absolute, so this is exhaustive; the
  textual form of a path is recovered by `joinAbs`.
-/

/-- Go `strings.HasPrefix` on character lists. -/
def listStartsWith : List Char → List Char → Bool
  | [], _ => true
  | _ :: _, [] => false
  | p :: ps, c :: cs => p == c && listStartsWith ps cs

/-- Go `strings.Contains pat s` (does `s` contain `pat`?), on character lists. -/
def listHasInfix (pat : List Char) : List Char → Bool
  | [] => listStartsWith pat []
  | c :: cs => listStartsWith pat (c :: cs) || listHasInfix pat cs

/-- Go `strings.Contains s pat`. -/
def strContains (s pat : String) : Bool :=
  listHasInfix pat.toList s.toList

/-- Index of the first occurrence of `pat` in `cs` (Go `strings.Index`),
`none` for Go's `-1`. -/
def listFindInfix (pat : List Char) : List Char → Option Nat
  | [] => if listStartsWith pat [] then some 0 else none
  | c :: cs =>
    if listStartsWith pat (c :: cs) then some 0
    else (listFindInfix pat cs).map (· + 1)

/-- Go `strings.Index s pat` (character index; equals the byte index on
ASCII input). -/
def strIndexOf (s pat : String) : Option Nat :=
  listFindInfix pat.toList s.toList

/-- Go `strings.Split s (String.singleton sep)`: split on a one-character
separator, keeping empty fields.  Always returns a non-empty list. -/
def splitChar (sep : Char) : List Char → List (List Char)
  | [] => [[]]
  | c :: cs =>
    match splitChar sep cs with
    | [] => [[]]
    | f :: fs => if c == sep then [] :: f :: fs else (c :: f) :: fs

/-- Go `strings.Split` on a one-character separator, as a `String` operation. -/
def goSplit (s : String) (sep : Char) : List String :=
  (splitChar sep s.toList).map String.mk

/-- Go `strings.Fields`: split on runs of whitespace, dropping empty fields. -/
def goFields (s : String) : List String :=
  ((splitChar ' ' (s.toList.map fun c => if c.isWhitespace then ' ' else c)).filter
      (· ≠ [])).map String.mk

/-- Go `strings.TrimSpace`. -/
def goTrimSpace (s : String) : String :=
  String.mk (((s.toList.dropWhile Char.isWhitespace).reverse.dropWhile
      Char.isWhitespace).reverse)

/-- Digit run to a number: helper for `goAtoi`. -/
def digitsToNat (cs : List Char) : Nat :=
  cs.foldl (fun acc c => acc * 10 + (c.toNat - 48)) 0

/-- Go `strconv.Atoi`: an optional sign followed by at least one digit and
nothing else; `none` models the error return.  (Go also errors on 64-bit
overflow; the inputs of interest are small.) -/
def goAtoi (s : String) : Option Int :=
  match s.toList with
  | [] => none
  | '+' :: rest =>
    if rest ≠ [] ∧ rest.all Char.isDigit then some (Int.ofNat (digitsToNat rest))
    else none
  | '-' :: rest =>
    if rest ≠ [] ∧ rest.all Char.isDigit then some (-(Int.ofNat (digitsToNat rest)))
    else none
  | cs =>
    if cs.all Char.isDigit then some (Int.ofNat (digitsToNat cs)) else none

/-- Go `s[:n]` on ASCII strings: the first `n` characters. -/
def strTake (s : String) (n : Nat) : String :=
  String.mk (s.toList.take n)

/-- Go `s[n:]` on ASCII strings: drop the first `n` characters. -/
def strDrop (s : String) (n : Nat) : String :=
  String.mk (s.toList.drop n)

/-- Character length of a string (Go `len` on ASCII input). -/
def strLen (s : String) : Nat :=
  s.toList.length

/-- Go `strings.ReplaceAll s (String.singleton a) (String.singleton b)`. -/
def replaceChar (s : String) (a b : Char) : String :=
  String.mk (s.toList.map fun c => if c == a then b else c)

/-- Go `strings.HasPrefix`. -/
def strStartsWith (s pat : String) : Bool :=
  listStartsWith pat.toList s.toList

/-!  ## The domain entity: `Process` (src/unnamed/part_002, lines 12-22) -/

/-- The Go struct `process.Process`.  `startTime` is a `Nat` timestamp with
`0` for the Go zero value `time.Time{}`. -/
structure Process where
  pid : Int
  name : String
  port : Int
  command : String
  projectPath : String
  startTime : Nat
  isDocker : Bool
  dockerID : String
deriving DecidableEq, Repr

/-!  ## Paths and the project-directory heuristic (src/unnamed/part_002) -/

/-- A Go path as handed to `detectProject`: the empty string, or a cleaned
absolute path listed by segments (`FPath.abs []` is `/`). -/
inductive FPath where
  | empty : FPath
  | abs : List String → FPath
deriving DecidableEq, Repr

/-- The textual form of an `FPath.abs` path: `joinAbs ["a", "b"] = "/a/b"`,
`joinAbs [] = "/"`. -/
def joinAbs : List String → String
  | [] => "/"
  | segs => segs.foldl (fun acc s => acc ++ "/" ++ s) ""

/-- The marker-file oracle: `fs d f = true` models `os.Stat` succeeding on
file `f` inside the directory with segments `d` (i.e. on
`filepath.Join (joinAbs d) f`). -/
def MarkerFs : Type := List String → String → Bool

/-- The fixed marker list of `detectProject` (src/unnamed/part_002, lines
72-81). -/
def indicators : List String :=
  ["package.json", "go.mod", "Cargo.toml", "pom.xml", "build.gradle",
   "requirements.txt", "Gemfile", ".git"]

/-- Does directory `d` contain at least one marker file? -/
def dirHasMarker (fs : MarkerFs) (d : List String) : Bool :=
  indicators.any (fun i => fs d i)

/-- The ancestor walk of `detectProject` (src/unnamed/part_002, lines
83-96), driven by the reversed segment list so the recursion is structural:
`walkRev fs r` inspects the directory `r.reverse`, then its parent, ...
The Go loop checks the current directory, computes `parent :=
filepath.Dir current`, and stops (after the check) once `parent == current`
(only at `/`) or `parent == "/"` (current has one segment) — so the root
itself is inspected only when the walk starts there. -/
def walkRev (fs : MarkerFs) : List String → Option (List String)
  | [] => if dirHasMarker fs [] then some [] else none
  | [x] => if dirHasMarker fs [x] then some [x] else none
  | x :: y :: ys =>
    let cur := (x :: y :: ys).reverse
    if dirHasMarker fs cur then some cur else walkRev fs (y :: ys)

/-- Go `filepath.Base` (src usage: `filepath.Base(cwd)` on a cleaned
absolute path). -/
def goBase (s : String) : String :=
  if s = "" then "." else
  let cs := (s.toList.reverse.dropWhile (· == '/')).reverse
  if cs = [] then "/" else
  match (splitChar '/' cs).reverse with
  | last :: _ => String.mk last
  | [] => "/"

/-- Go `filepath.Join a b` for the slash-free non-empty components this code
feeds it: `a ++ "/" ++ b` (degenerate empty components collapse as in
`filepath.Clean`). -/
def goJoin2 (a b : String) : String :=
  if a = "" then b else if b = "" then a else a ++ "/" ++ b

/-- `detectProject` (src/unnamed/part_002, lines 63-108).  The `pid`
argument is kept because the Go function takes it (it is unused there too).
The path argument arrives cleaned (`filepath.Clean`), which `FPath`
represents by construction. -/
def detectProject (pid : Int) (cwd : FPath) (fs : MarkerFs) : String :=
  match cwd with
  | .empty => "unknown"
  | .abs segs =>
    match walkRev fs segs.reverse with
    | some root => joinAbs root
    | none =>
      let s := joinAbs segs
      if strContains s "home" || strContains s "Users" then
        let parts := goSplit s '/'
        if 4 < parts.length then
          match parts.drop (parts.length - 2) with
          | [a, b] => goJoin2 a b
          | _ => goBase s
        else goBase s
      else goBase s

/-- Parse an absolute path string back into an `FPath` (the boundary where
Go hands a string produced by the OS to `detectProject`; `filepath.Clean`
collapses duplicate separators, which the filter mirrors). -/
def goAbsPath (s : String) : FPath :=
  if s = "" then .empty else .abs ((goSplit s '/').filter (fun seg => seg ≠ ""))

/-!  ## Container detection (src/unnamed/part_002, lines 110-138) -/

/-- The inner loop of `isDockerProcess`: the first line containing
`"docker"` whose last `/`-segment has at least 12 characters yields the
first 12 characters of that segment. -/
def findDockerId (lines : List String) : Option String :=
  lines.findSome? fun line =>
    if strContains line "docker" then
      let cid := (goSplit line '/').getLast?.getD ""
      if 12 ≤ strLen cid then some (strTake cid 12) else none
    else none

/-- `isDockerProcess` (src/unnamed/part_002, lines 110-138).  `cgroup` is
the result of reading `/proc/<pid>/cgroup`: `none` models a read error. -/
def isDockerProcess (cgroup : Option String) : Bool × String :=
  match cgroup with
  | none => (false, "")
  | some content =>
    if strContains content "docker" then
      match findDockerId (goSplit content '\n') with
      | some cid => (true, cid)
      | none => (true, "unknown")
    else (false, "")

/-!  ## Two-phase kill (src/unnamed/part_002, lines 35-60) -/

/-- The observable steps of `Process.Kill`, in the order the Go code
performs them. -/
inductive KillAction where
  | findProc : KillAction
  | sigterm : KillAction
  | wait : KillAction
  | checkAlive : KillAction
  | sigkill : KillAction
deriving DecidableEq, Repr

/-- The process-side behaviour `Process.Kill` interacts with:
whether `os.FindProcess` succeeds, whether sending SIGTERM succeeds,
whether the process still exists after the two-second grace period
(signal 0 succeeding), and whether the SIGKILL delivery succeeds. -/
structure KillEnv where
  findOk : Bool
  termOk : Bool
  aliveAfterGrace : Bool
  killOk : Bool
deriving DecidableEq, Repr

/-- `Process.Kill` (src/unnamed/part_002, lines 35-60): the error result
(`some msg` models `err != nil`) together with the trace of steps taken.
SIGTERM is sent first; the code then sleeps for the fixed two-second grace
period, probes with signal 0, and sends SIGKILL only if the probe says the
process still exists. -/
def processKill (env : KillEnv) : Option String × List KillAction :=
  if !env.findOk then (some "process not found", [.findProc])
  else if !env.termOk then (some "failed to send SIGTERM", [.findProc, .sigterm])
  else if env.aliveAfterGrace then
    if env.killOk then (none, [.findProc, .sigterm, .wait, .checkAlive, .sigkill])
    else (some "failed to kill process",
          [.findProc, .sigterm, .wait, .checkAlive, .sigkill])
  else (none, [.findProc, .sigterm, .wait, .checkAlive])

/-!  ## Linux backend (src/internal/process/process_linux.go) -/

/-- The per-PID OS environment the Linux enrichment reads.  Each `Option`
field is one external query: `none` is the query failing. -/
structure LinuxProcEnv where
  /-- `os.ReadFile "/proc/<pid>/comm"`. -/
  comm : Option String
  /-- `os.ReadFile "/proc/<pid>/cmdline"`. -/
  cmdline : Option String
  /-- `os.Readlink "/proc/<pid>/cwd"` (an absolute path on success). -/
  cwdLink : Option String
  /-- `getProcessStartTime pid` (process_linux.go lines 220-266: the
  `/proc/<pid>/stat` field-22 clock-tick computation; modelled as the
  resulting timestamp, `none` when any step of it errors). -/
  procStartTime : Option Nat
  /-- `os.Stat("/proc/<pid>").ModTime()`. -/
  procDirModTime : Option Nat
  /-- `os.ReadFile "/proc/<pid>/cgroup"`. -/
  cgroup : Option String
  /-- Marker-file oracle used by `detectProject`. -/
  fs : MarkerFs

/-- `enrichProcessInfo` on Linux (process_linux.go lines 268-299).  Each
sub-query is guarded by its own `err == nil` check; note there is no final
fallback for `startTime` when both time sources fail. -/
def linuxEnrich (env : LinuxProcEnv) (p : Process) : Process :=
  let p1 := if p.name = "" then
      match env.comm with
      | some c => { p with name := goTrimSpace c }
      | none => p
    else p
  let p2 := match env.cmdline with
    | some c => { p1 with command := goTrimSpace (replaceChar c '\x00' ' ') }
    | none => p1
  let p3 := match env.cwdLink with
    | some cwd => { p2 with projectPath := detectProject p2.pid (goAbsPath cwd) env.fs }
    | none => p2
  let p4 := match env.procStartTime with
    | some t => { p3 with startTime := t }
    | none =>
      match env.procDirModTime with
      | some t => { p3 with startTime := t }
      | none => p3
  let d := isDockerProcess env.cgroup
  { p4 with isDocker := d.1, dockerID := d.2 }

/-- A fresh record as both Linux parsers build it before enrichment. -/
def freshProcess (pid : Int) (name : String) (port : Int) : Process :=
  { pid := pid, name := name, port := port, command := "", projectPath := "",
    startTime := 0, isDocker := false, dockerID := "" }

/-- `parseSSLine` (process_linux.go lines 85-116): extract the PID from the
last field (shape `users:(("nginx",pid=1234,fd=6))`), build the record and
enrich it.  `none` models the Go `nil, nil` returns.  (Where both `","` and
`")"` are absent after `pid=` the Go code would slice out of range; that is
treated as a parse failure here and exercised by no theorem.) -/
def parseSSLine (envOf : Int → LinuxProcEnv) (line : String) (port : Int) :
    Option Process :=
  let fields := goFields line
  if fields.length < 7 then none
  else
    match fields.reverse with
    | [] => none
    | pidProg :: _ =>
      if strContains pidProg "pid=" then
        match strIndexOf pidProg "pid=" with
        | none => none
        | some i =>
          let rest := strDrop pidProg (i + 4)
          let pidEnd := match strIndexOf rest "," with
            | some e => some e
            | none => strIndexOf rest ")"
          match pidEnd with
          | none => none
          | some e =>
            match goAtoi (strTake rest e) with
            | none => none
            | some pid => some (linuxEnrich (envOf pid) (freshProcess pid "" port))
      else none

/-- `parseNetstatLine` (process_linux.go lines 118-148): field 7 is
`pid/program`; `-` marks sockets the OS could not attribute. -/
def parseNetstatLine (envOf : Int → LinuxProcEnv) (line : String) (port : Int) :
    Option Process :=
  let fields := goFields line
  if fields.length < 7 then none
  else
    let pidProg := fields.getD 6 ""
    if pidProg = "-" then none
    else
      match goSplit pidProg '/' with
      | [a, b] =>
        match goAtoi a with
        | none => none
        | some pid => some (linuxEnrich (envOf pid) (freshProcess pid b port))
      | _ => none

/-- `parseSSOutput` (process_linux.go lines 150-183): every LISTEN line
after the header contributes a record — there is no (pid, port)
deduplication on this path. -/
def parseSSOutput (envOf : Int → LinuxProcEnv) (output : String) : List Process :=
  ((goSplit output '\n').drop 1).filterMap fun line =>
    if strContains line "LISTEN" then
      let fields := goFields line
      if fields.length < 5 then none
      else
        let parts := goSplit (fields.getD 4 "") ':'
        if parts.length < 2 then none
        else
          match goAtoi (parts.getLast?.getD "") with
          | none => none
          | some port => parseSSLine envOf line port
    else none

/-- `parseNetstatOutput` (process_linux.go lines 185-218). -/
def parseNetstatOutput (envOf : Int → LinuxProcEnv) (output : String) :
    List Process :=
  (goSplit output '\n').filterMap fun line =>
    if strContains line "LISTEN" then
      let fields := goFields line
      if fields.length < 7 then none
      else
        let parts := goSplit (fields.getD 3 "") ':'
        if parts.length < 2 then none
        else
          match goAtoi (parts.getLast?.getD "") with
          | none => none
          | some port => parseNetstatLine envOf line port
    else none

/-- `findUsingSS` (process_linux.go lines 51-66).  `ssOut` is the result of
running `ss -tulnp sport = :<port>`: `none` when the command errors. -/
def linuxFindUsingSS (ssOut : Option String) (envOf : Int → LinuxProcEnv)
    (port : Int) : Except String (Option Process) :=
  match ssOut with
  | none => .error "ss failed"
  | some out =>
    match ((goSplit out '\n').drop 1).find? (fun line =>
        strContains line (":" ++ toString port) && strContains line "LISTEN") with
    | some line => .ok (parseSSLine envOf line port)
    | none => .ok none

/-- `findUsingNetstat` (process_linux.go lines 68-83).  `netOut` is the
result of running `netstat -tulnp`. -/
def linuxFindUsingNetstat (netOut : Option String) (envOf : Int → LinuxProcEnv)
    (port : Int) : Except String (Option Process) :=
  match netOut with
  | none => .error "netstat failed"
  | some out =>
    match (goSplit out '\n').find? (fun line =>
        strContains line (":" ++ toString port) && strContains line "LISTEN") with
    | some line => .ok (parseNetstatLine envOf line port)
    | none => .ok none

/-- `FindByPort` on Linux (process_linux.go lines 17-26): use the `ss`
answer only when it is a hit; in every other case — including `ss`
succeeding but showing no listener — fall through to `netstat`. -/
def linuxFindByPort (ssOut netOut : Option String) (envOf : Int → LinuxProcEnv)
    (port : Int) : Except String (Option Process) :=
  match linuxFindUsingSS ssOut envOf port with
  | .ok (some p) => .ok (some p)
  | _ => linuxFindUsingNetstat netOut envOf port

/-- `ListAll` on Linux (process_linux.go lines 28-49): `ss -tulnp`, else
`netstat -tulnp`, else the error surfaces. -/
def linuxListAll (ssOut netOut : Option String) (envOf : Int → LinuxProcEnv) :
    Except String (List Process) :=
  match ssOut with
  | some out => .ok (parseSSOutput envOf out)
  | none =>
    match netOut with
    | some out => .ok (parseNetstatOutput envOf out)
    | none => .error "failed to list ports"

/-!  ## Darwin backend (src/internal/process/process_darwin.go — the second
file in src/internal/process, build tag `darwin`) -/

/-- The per-PID environment the darwin enrichment reads. -/
structure DarwinProcEnv where
  /-- Output of `ps -p <pid> -o comm=,command=`; `none` when the command
  errors (which makes the Go function return immediately). -/
  psInfo : Option String
  /-- Output of `ps -p <pid> -o lstart=` combined with `time.Parse`:
  `none` = the command errored, `some none` = it succeeded but the output
  did not parse, `some (some t)` = it parsed to timestamp `t`. -/
  psLstart : Option (Option Nat)
  /-- Output of `lsof -p <pid> -d cwd -a`; `none` when the command errors. -/
  lsofCwd : Option String
  /-- `time.Now()`. -/
  now : Nat
  /-- Marker-file oracle used by `detectProject`. -/
  fs : MarkerFs

/-- Go `strings.SplitN s " " 2`. -/
def goSplitN2 (s : String) : List String :=
  match goSplit s ' ' with
  | [] => [""]
  | [x] => [x]
  | x :: rest => [x, String.intercalate " " rest]

/-- One iteration of the darwin working-directory loop (lines 469-480 of
the darwin file): a line mentioning `cwd` with more than eight fields
updates the project path from its last field; the last matching line wins. -/
def darwinCwdStep (fs : MarkerFs) (acc : Process) (line : String) : Process :=
  if strContains line "cwd" then
    let fields := goFields line
    if 8 < fields.length then
      { acc with projectPath :=
          detectProject acc.pid (goAbsPath (fields.getLast?.getD "")) fs }
    else acc
  else acc

/-- `enrichProcessInfo` on darwin (second file in src/internal/process,
lines 436-486 of the concatenation).  If the initial `ps` call errors the
function returns at once, skipping command line, start time, working
directory and the container check alike. -/
def darwinEnrich (env : DarwinProcEnv) (p : Process) : Process :=
  match env.psInfo with
  | none => p
  | some out =>
    let lines := goSplit (goTrimSpace out) '\n'
    let p1 := match lines with
      | [] => p
      | l0 :: _ =>
        match goSplitN2 l0 with
        | [_, cmdPart] => { p with command := goTrimSpace cmdPart }
        | _ => p
    let p2 := match env.psLstart with
      | none => p1
      | some (some t) => { p1 with startTime := t }
      | some none => { p1 with startTime := env.now }
    let p3 := match env.lsofCwd with
      | none => p2
      | some cwdOut => (goSplit cwdOut '\n').foldl (darwinCwdStep env.fs) p2
    if strContains p3.command "docker" || strContains p3.name "com.docker" then
      { p3 with isDocker := true }
    else p3

/-- `parseLsofOutput` (darwin file, lines 340-377): first post-header LISTEN
line with at least nine fields and a numeric PID. -/
def parseLsofOutput (envOf : Int → DarwinProcEnv) (output : String) (port : Int) :
    Option Process :=
  let lines := goSplit (goTrimSpace output) '\n'
  if lines.length < 2 then none
  else
    (lines.drop 1).findSome? fun line =>
      let fields := goFields line
      if fields.length < 9 then none
      else if !strContains line "LISTEN" then none
      else
        match goAtoi (fields.getD 1 "") with
        | none => none
        | some pid =>
          some (darwinEnrich (envOf pid) (freshProcess pid (fields.headD "") port))

/-- The three ways `lsof -i :<port> -n -P` can come back (darwin file,
lines 315-328): exit code 1 (no matching socket — not an error), any other
failure, or its output. -/
inductive LsofResult where
  | exitOne : LsofResult
  | errOther : LsofResult
  | ok : String → LsofResult

/-- `FindByPort` on darwin (darwin file, lines 315-328). -/
def darwinFindByPort (res : LsofResult) (envOf : Int → DarwinProcEnv)
    (port : Int) : Except String (Option Process) :=
  match res with
  | .exitOne => .ok none
  | .errOther => .error "lsof failed"
  | .ok out => .ok (parseLsofOutput envOf out port)

/-- The regex `:(\d+)\s+\(LISTEN\)` of `parseLsofOutputMultiple`: scan for
the leftmost `:`, then one or more digits, one or more whitespace
characters, then the literal `(LISTEN)`; yield the digits. -/
def matchPortListen : List Char → Option Nat
  | [] => none
  | ':' :: rest =>
    let ds := rest.takeWhile Char.isDigit
    let afterDigits := rest.dropWhile Char.isDigit
    let ws := afterDigits.takeWhile Char.isWhitespace
    let afterWs := afterDigits.dropWhile Char.isWhitespace
    if ds ≠ [] && ws ≠ [] && listStartsWith "(LISTEN)".toList afterWs then
      some (digitsToNat ds)
    else matchPortListen rest
  | _ :: rest => matchPortListen rest

/-- One line of `parseLsofOutputMultiple` (darwin file, lines 388-411):
name, PID and port of a usable LISTEN line. -/
def darwinParseLine (line : String) : Option (String × Int × Int) :=
  let fields := goFields line
  if fields.length < 9 then none
  else if !strContains line "LISTEN" then none
  else
    match matchPortListen line.toList with
    | none => none
    | some port =>
      match goAtoi (fields.getD 1 "") with
      | none => none
      | some pid => some (fields.headD "", pid, Int.ofNat port)

/-- The accumulation loop of `parseLsofOutputMultiple` (darwin file, lines
388-426).  Go keys its `processMap` by the string `"<pid>-<port>"`, which is
in bijection with the pair, so the model keys by `(pid, port)` directly;
the association list keeps insertion order where Go map iteration order is
unspecified — the claims proved below are order-independent. -/
def darwinLsofLoop (envOf : Int → DarwinProcEnv) :
    List String → List ((Int × Int) × Process) → List ((Int × Int) × Process)
  | [], acc => acc
  | line :: rest, acc =>
    match darwinParseLine line with
    | none => darwinLsofLoop envOf rest acc
    | some (nm, pid, port) =>
      if acc.any (fun kv => kv.1 == (pid, port)) then darwinLsofLoop envOf rest acc
      else
        darwinLsofLoop envOf rest
          (acc ++ [((pid, port), darwinEnrich (envOf pid) (freshProcess pid nm port))])

/-- `parseLsofOutputMultiple` (darwin file, lines 379-434). -/
def darwinParseLsofMultiple (envOf : Int → DarwinProcEnv) (output : String) :
    List Process :=
  let lines := goSplit (goTrimSpace output) '\n'
  if lines.length < 2 then []
  else (darwinLsofLoop envOf (lines.drop 1) []).map (·.2)

/-!  ## Windows backend — start-time portion (process_windows.go lines
211-239).  The Go field updates of `enrichProcessInfo` are independent, so
the `startTime` slice is modelled on its own; it is the only part of the
Windows enrichment any claim needs. -/

/-- Environment of the Windows start-time query. -/
structure WinTimeEnv where
  /-- Output of `wmic process where ProcessId=<pid> get CreationDate`;
  `none` when the command errors. -/
  wmicCreation : Option String
  /-- `time.Now()`. -/
  now : Nat

/-- `time.Date` on the six fields the Windows code slices out of the WMI
datetime string, encoded as a mixed-radix `Nat`.  The encoding is injective
on in-range fields and is `0` exactly when every parsed field is `0` (the
all-errors outcome of the six ignored `strconv.Atoi` error returns). -/
def winDateCode (y mo d h mi s : Nat) : Nat :=
  ((((y * 13 + mo) * 32 + d) * 24 + h) * 60 + mi) * 60 + s

/-- One `strconv.Atoi` with the error ignored (Go leaves the value `0`). -/
def atoiField (s : String) : Nat :=
  ((goAtoi s).getD 0).toNat

/-- The `CreationDate` parse of process_windows.go lines 220-229. -/
def winParseCreation (dateStr : String) : Nat :=
  winDateCode (atoiField (strTake dateStr 4))
    (atoiField (strTake (strDrop dateStr 4) 2))
    (atoiField (strTake (strDrop dateStr 6) 2))
    (atoiField (strTake (strDrop dateStr 8) 2))
    (atoiField (strTake (strDrop dateStr 10) 2))
    (atoiField (strTake (strDrop dateStr 12) 2))

/-- The start-time slice of the Windows `enrichProcessInfo`
(process_windows.go lines 211-239): parse the first `CreationDate=` line if
the string is long enough, and afterwards replace a still-zero start time
by `now`. -/
def winEnrichStartTime (env : WinTimeEnv) (st : Nat) : Nat :=
  let st1 := match env.wmicCreation with
    | none => st
    | some out =>
      match (goSplit out '\n').find? (fun line =>
          strStartsWith line "CreationDate=") with
      | none => st
      | some line =>
        let dateStr := goTrimSpace (strDrop line (strLen "CreationDate="))
        if 14 ≤ strLen dateStr then winParseCreation dateStr else st
  if st1 = 0 then env.now else st1

/-!  ## Interactive process list (src/unnamed/part_001) -/

/-- `truncate` (part_001 lines 402-407). -/
def uiTruncate (s : String) (n : Nat) : String :=
  if strLen s ≤ n then s else strTake s (n - 3) ++ "..."

/-- `formatDuration` (src/unnamed/part_000 lines 184-194), on a duration in
seconds (Go stores nanoseconds; the printed integer truncations agree). -/
def formatDuration (d : Nat) : String :=
  if d < 60 then "< 1 minute"
  else if d < 3600 then toString (d / 60) ++ " minutes"
  else if d < 86400 then toString (d / 3600) ++ " hours"
  else toString (d / 86400) ++ " days"

/-- `processToRow` (part_001 lines 176-195).  `now` is the clock reading
used by `time.Since`. -/
def processToRow (now : Nat) (p : Process) : List String :=
  let projectPath := if p.projectPath = "" || p.projectPath = "unknown" then "-"
    else p.projectPath
  [toString p.port, p.name, toString p.pid, uiTruncate projectPath 30,
   formatDuration (now - p.startTime), if p.isDocker then "Docker" else "Native"]

/-- The slice of `ProcessListModel` state the kill handler touches
(part_001 lines 107-120): the in-memory list, the table rows, the status
message and the table cursor. -/
structure UIModel where
  processes : List Process
  rows : List (List String)
  message : String
  cursor : Nat

/-- The kill branch of `ProcessListModel.Update` (part_001 lines 224-241).
`killRes p` is the outcome of `p.Kill()` (`some msg` models the error).
On failure only the message is set; on success the selected record is
removed and the rows rebuilt.  (The message timer and the trailing generic
`table.Update`, which never touches the rows, are outside the model.) -/
def handleKillKey (killRes : Process → Option String) (now : Nat)
    (m : UIModel) : UIModel :=
  if 0 < m.processes.length ∧ m.cursor < m.processes.length then
    let proc := m.processes.getD m.cursor (freshProcess 0 "" 0)
    match killRes proc with
    | some e => { m with message := "❌ Failed to kill process: " ++ e }
    | none =>
      let ps := m.processes.eraseIdx m.cursor
      { m with
        message := "✅ Killed " ++ proc.name ++ " (PID: " ++ toString proc.pid ++ ")",
        processes := ps,
        rows := ps.map (processToRow now) }
  else m

/-!  ## Specification-side predicates and sample environments

Everything below is vocabulary for the theorems: the chain of directories
the walk visits, decidable "no listener in this table" predicates, and
concrete environments used by counterexamples and witnesses. -/

/-- Companion of `walkRev`: the directories the Go loop visits, in visit
order, for the reversed segment list `r` (so `chainRev segs.reverse` starts
at the directory `segs`). -/
def chainRev : List String → List (List String)
  | [] => [[]]
  | [x] => [[x]]
  | x :: y :: ys => (x :: y :: ys).reverse :: chainRev (y :: ys)

/-- The directories `detectProject` inspects for markers, closest first:
the start directory, its parent, ..., down to depth one (the filesystem
root appears only when the start is the root). -/
def ancestorChain (segs : List String) : List (List String) :=
  chainRev segs.reverse

/-- A line of a cgroup file from which `isDockerProcess` can actually
extract an identifier: it mentions `docker` and its last `/`-segment has at
least 12 characters. -/
def goodDockerLine (l : String) : Bool :=
  strContains l "docker" && 12 ≤ strLen ((goSplit l '/').getLast?.getD "")

/-- A path segment as produced by cleaning an absolute path: non-empty and
free of separators. -/
def cleanSeg (s : String) : Bool :=
  s ≠ "" && !s.toList.contains '/'

/-- The final path segment of an absolute path (`"/"` for the root), the
value `filepath.Base` yields on the cleaned absolute paths in play. -/
def lastSegOr (segs : List String) : String :=
  segs.getLast?.getD "/"

/-- No line of the (header-stripped) `ss` listing mentions the queried port
in LISTEN state — the "no listener, and the table says so" situation for
the `ss` path of `FindByPort`.  `none` (the command failed) also reports no
listener. -/
def ssShowsNoListener (ssOut : Option String) (port : Int) : Bool :=
  match ssOut with
  | none => true
  | some out =>
    ((goSplit out '\n').drop 1).all fun line =>
      !(strContains line (":" ++ toString port) && strContains line "LISTEN")

/-- No line of the `netstat` listing mentions the queried port in LISTEN
state. -/
def netstatShowsNoListener (netOut : Option String) (port : Int) : Bool :=
  match netOut with
  | none => true
  | some out =>
    (goSplit out '\n').all fun line =>
      !(strContains line (":" ++ toString port) && strContains line "LISTEN")

/-- No line of the `lsof` listing is in LISTEN state. -/
def lsofShowsNoListener (out : String) : Bool :=
  (goSplit (goTrimSpace out) '\n').all fun line => !strContains line "LISTEN"

/-- A marker oracle with no marker files at all. -/
def noMarkerFs : MarkerFs := fun _ _ => false

/-- A marker oracle whose only marker is `/.git`, at the filesystem root. -/
def rootMarkerFs : MarkerFs := fun d f => d.isEmpty && f == ".git"

/-- A Linux per-PID environment in which every OS query fails. -/
def linuxEnvNone : LinuxProcEnv :=
  ⟨none, none, none, none, none, none, noMarkerFs⟩

/-- `linuxEnvNone` for every PID. -/
def linuxEnvOfNone : Int → LinuxProcEnv := fun _ => linuxEnvNone

/-- An `ss -tulnp` header line (no LISTEN entries follow). -/
def ssHeaderLine : String :=
  "Netid State Recv-Q Send-Q Local-Address:Port Peer-Address:Port Process"

/-- One `ss` LISTEN line: nginx (PID 123) on the IPv4 side of port 80. -/
def ssListenLine4 : String :=
  "tcp LISTEN 0 128 0.0.0.0:80 0.0.0.0:* users:((\"nginx\",pid=123,fd=6))"

/-- The same socket's IPv6 twin, as `ss` reports a dual-stack bind. -/
def ssListenLine6 : String :=
  "tcp LISTEN 0 128 [::]:80 [::]:* users:((\"nginx\",pid=123,fd=7))"

/-- An `ss -tulnp` listing of a dual-stack bind: the same (pid, port) on
two lines. -/
def ssOutDual : String :=
  ssHeaderLine ++ "\n" ++ ssListenLine4 ++ "\n" ++ ssListenLine6

/-- An `ss` listing with the single IPv4 LISTEN line. -/
def ssOutOne : String :=
  ssHeaderLine ++ "\n" ++ ssListenLine4

/-- A darwin environment whose initial `ps` call fails while the start-time
query would succeed (with timestamp 42). -/
def darwinEnvAbort : DarwinProcEnv :=
  ⟨none, some (some 42), none, 99, noMarkerFs⟩

/-- A one-row interactive list model. -/
def uiModel0 : UIModel :=
  ⟨[freshProcess 9 "node" 3000], [["3000", "node", "9", "-", "< 1 minute", "Native"]],
   "", 0⟩

/-- A marker oracle with a single `package.json` in `/home/u/projects/app`
(the scenario of the specification). -/
def appFs : MarkerFs :=
  fun d f => d == ["home", "u", "projects", "app"] && f == "package.json"

/-- The last two path segments, joined by a separator (the home-directory
fallback label the specification describes). -/
def joinLastTwo (segs : List String) : String :=
  match segs.drop (segs.length - 2) with
  | [a, b] => a ++ "/" ++ b
  | _ => ""

/-- The character form of `joinAbs segs` for non-empty `segs`:
`/seg0/seg1/...`. -/
def joinAbsChars (segs : List String) : List Char :=
  segs.foldr (fun s r => '/' :: s.toList ++ r) []

/-!  ## Theorems -/

set_option maxRecDepth 8192

/-- The ancestor walk returns exactly the first directory of the visited
chain that carries a marker. -/
theorem walkRev_eq_find (fs : MarkerFs) :
    ∀ r, walkRev fs r = (chainRev r).find? (fun d => dirHasMarker fs d)
  | [] => by
    cases h : dirHasMarker fs [] <;> simp [walkRev, chainRev, List.find?, h]
  | [x] => by
    cases h : dirHasMarker fs [x] <;> simp [walkRev, chainRev, List.find?, h]
  | x :: y :: ys => by
    have ih := walkRev_eq_find fs (y :: ys)
    simp only [walkRev, chainRev, ih, List.find?]
    cases dirHasMarker fs ((x :: y :: ys).reverse) <;> simp

/-- C7: every kill is two-phase.  A force-terminate (`sigkill`) appears in
the trace of `Process.Kill` exactly when the process was found, the
graceful SIGTERM was delivered, and the process still existed after the
grace period; and every trace is an order-preserving prefix of
find → SIGTERM → wait → liveness check → SIGKILL, so the graceful request
and the grace period always precede any force-terminate, and a process
that exits within the grace period never receives one. -/
theorem c7_kill_two_phase (env : KillEnv) :
    ((KillAction.sigkill ∈ (processKill env).2) ↔
      (env.findOk = true ∧ env.termOk = true ∧ env.aliveAfterGrace = true)) ∧
    (∃ n, (processKill env).2 =
      [KillAction.findProc, KillAction.sigterm, KillAction.wait,
       KillAction.checkAlive, KillAction.sigkill].take n) := by
  obtain ⟨f, t, a, k⟩ := env
  cases f <;> cases t <;> cases a <;> cases k <;>
    first
      | exact ⟨by decide, 1, rfl⟩
      | exact ⟨by decide, 2, rfl⟩
      | exact ⟨by decide, 4, rfl⟩
      | exact ⟨by decide, 5, rfl⟩

/-- C9: `detectProject` ignores its `pid` argument — its result depends
only on the path and the (filesystem) marker oracle. -/
theorem c9_pid_independent (pid1 pid2 : Int) (cwd : FPath) (fs : MarkerFs) :
    detectProject pid1 cwd fs = detectProject pid2 cwd fs := rfl

/-- C1 counterexample: on the Linux backend, when both start-time sources
fail (`getProcessStartTime` and `os.Stat` on `/proc/<pid>`), `FindByPort`
returns a record whose `startTime` is still the zero value — there is no
final fallback to `time.Now()` on this path, contrary to the claim. -/
theorem c1_counterexample :
    linuxFindByPort (some ssOutOne) none linuxEnvOfNone 80 =
      .ok (some (freshProcess 123 "" 80)) ∧
    (freshProcess 123 "" 80).startTime = 0 := ⟨rfl, rfl⟩

/-- C2 counterexample: the Linux `ss` path of `listAll` performs no
deduplication — a dual-stack bind (same pid and port on an IPv4 and an
IPv6 line) yields two records with identical (pid, port). -/
theorem c2_counterexample :
    linuxListAll (some ssOutDual) none linuxEnvOfNone =
      .ok [freshProcess 123 "" 80, freshProcess 123 "" 80] ∧
    ¬ List.Pairwise (fun p q : Process => ¬(p.pid = q.pid ∧ p.port = q.port))
        [freshProcess 123 "" 80, freshProcess 123 "" 80] := ⟨rfl, by decide⟩

/-- C3 counterexample: with no listener on port 80 (the `ss` query succeeds
and shows none) but `netstat` not invocable, the Linux `FindByPort` returns
an error rather than none — because a miss on the `ss` path always falls
through to `netstat`. -/
theorem c3_counterexample :
    linuxFindUsingSS (some ssHeaderLine) linuxEnvOfNone 80 = .ok none ∧
    linuxFindByPort (some ssHeaderLine) none linuxEnvOfNone 80 =
      .error "netstat failed" := ⟨rfl, rfl⟩

/-- C4 counterexample: on darwin, failure of the initial `ps` sub-query
aborts the whole enrichment: the start time stays at its default even
though the start-time source would have answered (42), and the container
check is skipped even though the process name matches `com.docker` — as
the same environment with `ps` succeeding shows. -/
theorem c4_counterexample :
    darwinEnrich darwinEnvAbort (freshProcess 5 "com.docker.backend" 80) =
      freshProcess 5 "com.docker.backend" 80 ∧
    darwinEnvAbort.psLstart = some (some 42) ∧
    strContains "com.docker.backend" "com.docker" = true ∧
    (darwinEnrich { darwinEnvAbort with psInfo := some "ps" }
        (freshProcess 5 "com.docker.backend" 80)).startTime = 42 ∧
    (darwinEnrich { darwinEnvAbort with psInfo := some "ps" }
        (freshProcess 5 "com.docker.backend" 80)).isDocker = true :=
  ⟨rfl, rfl, rfl, rfl, rfl⟩

/-- C5 counterexample: a marker that sits only at the filesystem root — an
ancestor of `/a/b` — is never found, because the walk stops before
inspecting `/` (it does inspect `/` when the walk starts there), so
`detectProject` falls back to the base name `"b"` instead of returning the
marker directory `/`. -/
theorem c5_counterexample :
    detectProject 7 (.abs ["a", "b"]) rootMarkerFs = "b" ∧
    dirHasMarker rootMarkerFs [] = true ∧
    dirHasMarker rootMarkerFs ["a", "b"] = false ∧
    dirHasMarker rootMarkerFs ["a"] = false ∧
    detectProject 7 (.abs []) rootMarkerFs = "/" ∧
    ("b" : String) ≠ "/" := ⟨rfl, rfl, rfl, rfl, rfl, by decide⟩

/-- C6 counterexample: `/home/u/app` has no markers and lies under a user
home directory, so the claim predicts the last two segments `"u/app"`; the
code returns only the base name `"app"`, because the last-two-segments
fallback additionally requires more than four `/`-split parts. -/
theorem c6_counterexample :
    detectProject 1 (.abs ["home", "u", "app"]) noMarkerFs = "app" ∧
    strContains (joinAbs ["home", "u", "app"]) "home" = true ∧
    ("app" : String) ≠ "u/app" := ⟨rfl, rfl, by decide⟩

/-- C8 counterexample: a docker cgroup line whose last `/`-segment is
shorter than 12 characters (`abc`) yields the identifier `"unknown"`, not
a truncation of that segment as the claim states. -/
theorem c8_counterexample :
    isDockerProcess (some "5:cpu:/docker/abc") = (true, "unknown") ∧
    (goSplit "5:cpu:/docker/abc" '/').getLast?.getD "" = "abc" ∧
    ("unknown" : String) ≠ "abc" := ⟨rfl, rfl, by decide⟩

/-- A scan finds nothing when every element fails the predicate. -/
theorem find?_none_of_all_not {α : Type} (p : α → Bool) (l : List α)
    (h : l.all (fun a => !p a) = true) : l.find? p = none := by
  apply List.find?_eq_none.2
  intro x hx
  have hx2 := List.all_eq_true.1 h x hx
  simp only [Bool.not_eq_true'] at hx2
  simp [hx2]

/-- `findSome?` yields nothing when every element yields nothing. -/
theorem findSome?_none_of_all {α β : Type} (f : α → Option β) :
    ∀ l : List α, (∀ a ∈ l, f a = none) → l.findSome? f = none := by
  intro l
  induction l with
  | nil => intro _; rfl
  | cons a t ih =>
    intro h
    rw [List.findSome?_cons, h a (by simp)]
    exact ih fun x hx => h x (by simp [hx])

/-- C1 amended: only the Windows backend guarantees a non-zero start time
(its enrichment ends with an explicit replace-zero-by-`now` step), while
the Linux enrichment sets `startTime` to the process-accounting value when
available, else to the `/proc/<pid>` directory metadata time when
available, and otherwise leaves the field untouched — so a fresh record
keeps the zero value when both sources fail, as `c1_counterexample`
exhibits. -/
theorem c1_startTime_amended :
    (∀ (env : WinTimeEnv) (st : Nat), env.now ≠ 0 → winEnrichStartTime env st ≠ 0) ∧
    (∀ (env : LinuxProcEnv) (p : Process),
      (linuxEnrich env p).startTime =
        ((env.procStartTime).orElse (fun _ => env.procDirModTime)).getD
          p.startTime) := by
  constructor
  · intro env st h
    simp only [winEnrichStartTime]
    split
    · exact h
    · assumption
  · intro env p
    obtain ⟨comm, cmdline, cwdLink, pst, pdm, cgroup, fs⟩ := env
    cases pst <;> cases pdm <;> cases comm <;> cases cmdline <;> cases cwdLink <;>
      by_cases hn : p.name = "" <;>
        simp [linuxEnrich, hn, Option.orElse, Option.getD]

/-- C1 amended, witness: a Windows enrichment in which the creation-date
query fails still produces a non-zero start time. -/
theorem c1_startTime_amended_witness : winEnrichStartTime ⟨none, 77⟩ 0 ≠ 0 :=
  c1_startTime_amended.1 ⟨none, 77⟩ 0 (by decide)

/-- C4 amended: the Linux enrichment is total and per-field isolated —
each sub-query failure leaves exactly its own field at the incoming value
(the container pair is re-assigned its default), and a success lands
regardless of the other queries.  On darwin this isolation fails: the
initial `ps` failure aborts the remaining enrichment (`c4_counterexample`). -/
theorem c4_enrich_amended (env : LinuxProcEnv) (p : Process) :
    (env.cmdline = none → (linuxEnrich env p).command = p.command) ∧
    (env.comm = none → (linuxEnrich env p).name = p.name) ∧
    (env.cwdLink = none → (linuxEnrich env p).projectPath = p.projectPath) ∧
    (env.procStartTime = none → env.procDirModTime = none →
      (linuxEnrich env p).startTime = p.startTime) ∧
    (env.cgroup = none →
      (linuxEnrich env p).isDocker = false ∧ (linuxEnrich env p).dockerID = "") ∧
    (∀ t, env.procStartTime = some t → (linuxEnrich env p).startTime = t) := by
  obtain ⟨comm, cmdline, cwdLink, pst, pdm, cgroup, fs⟩ := env
  cases pst <;> cases pdm <;> cases comm <;> cases cmdline <;> cases cwdLink <;>
    cases cgroup <;> by_cases hn : p.name = "" <;>
      simp [linuxEnrich, hn, isDockerProcess]

/-- C4 amended, witness: with every Linux sub-query failing, the command
field keeps its incoming value. -/
theorem c4_enrich_amended_witness :
    (linuxEnrich linuxEnvNone (freshProcess 1 "sh" 2)).command =
      (freshProcess 1 "sh" 2).command :=
  (c4_enrich_amended linuxEnvNone (freshProcess 1 "sh" 2)).1 rfl

/-- C3 amended: when no listener shows up in the tables, `findByPort`
returns none without error **provided the mechanism it ends on is
invocable**: on Linux a miss always falls through to `netstat`, so with no
listener the result is none when `netstat` runs and an error when it
cannot be invoked (`c3_counterexample` shows this even though `ss` ran
fine); on darwin an `lsof` exit code 1 or a listing without LISTEN lines
gives none, and only an `lsof` hard failure gives an error. -/
theorem c3_findByPort_amended :
    (∀ (ssOut netOut : Option String) (envOf : Int → LinuxProcEnv) (port : Int),
      ssShowsNoListener ssOut port = true →
      netstatShowsNoListener netOut port = true →
      linuxFindByPort ssOut netOut envOf port =
        (match netOut with
         | some _ => .ok none
         | none => .error "netstat failed")) ∧
    (∀ (envOf : Int → DarwinProcEnv) (port : Int),
      darwinFindByPort .exitOne envOf port = .ok none) ∧
    (∀ (out : String) (envOf : Int → DarwinProcEnv) (port : Int),
      lsofShowsNoListener out = true →
      darwinFindByPort (.ok out) envOf port = .ok none) ∧
    (∀ (envOf : Int → DarwinProcEnv) (port : Int),
      darwinFindByPort .errOther envOf port = .error "lsof failed") := by
  refine ⟨?_, fun _ _ => rfl, ?_, fun _ _ => rfl⟩
  · intro ssOut netOut envOf port h1 h2
    cases netOut with
    | none =>
      cases ssOut with
      | none => rfl
      | some out =>
        simp only [ssShowsNoListener] at h1
        have hss : linuxFindUsingSS (some out) envOf port = .ok none := by
          simp only [linuxFindUsingSS, find?_none_of_all_not _ _ h1]
        simp only [linuxFindByPort, hss]
        rfl
    | some out2 =>
      simp only [netstatShowsNoListener] at h2
      have hnet : linuxFindUsingNetstat (some out2) envOf port = .ok none := by
        simp only [linuxFindUsingNetstat, find?_none_of_all_not _ _ h2]
      cases ssOut with
      | none =>
        simp only [linuxFindByPort, linuxFindUsingSS]
        exact hnet
      | some out =>
        simp only [ssShowsNoListener] at h1
        have hss : linuxFindUsingSS (some out) envOf port = .ok none := by
          simp only [linuxFindUsingSS, find?_none_of_all_not _ _ h1]
        simp only [linuxFindByPort, hss]
        exact hnet
  · intro out envOf port h
    simp only [lsofShowsNoListener] at h
    simp only [darwinFindByPort, parseLsofOutput]
    split
    · rfl
    · rw [findSome?_none_of_all]
      intro line hline
      have hmem := List.mem_of_mem_drop hline
      have hc := List.all_eq_true.1 h line hmem
      simp only [Bool.not_eq_true'] at hc
      simp [hc]

/-- C3 amended, witness: a free port with `ss` and `netstat` both invocable
yields none, not an error. -/
theorem c3_findByPort_amended_witness :
    linuxFindByPort (some ssHeaderLine) (some "Active connections")
      linuxEnvOfNone 80 = .ok none :=
  c3_findByPort_amended.1 (some ssHeaderLine) (some "Active connections")
    linuxEnvOfNone 80 (by decide) (by decide)

/-- The container-id scan, characterised: the first line that both mentions
`docker` and has a long-enough last `/`-segment supplies the identifier. -/
theorem findDockerId_eq (lines : List String) :
    findDockerId lines =
      (lines.find? goodDockerLine).map
        (fun l => strTake ((goSplit l '/').getLast?.getD "") 12) := by
  induction lines with
  | nil => rfl
  | cons line rest ih =>
    simp only [findDockerId] at ih
    by_cases h1 : strContains line "docker" = true
    · by_cases h2 : 12 ≤ strLen ((goSplit line '/').getLast?.getD "")
      · simp [findDockerId, List.findSome?_cons, List.find?_cons, goodDockerLine,
          h1, h2]
      · simp [findDockerId, List.findSome?_cons, List.find?_cons, goodDockerLine,
          h1, h2, ih]
    · simp only [Bool.not_eq_true] at h1
      simp [findDockerId, List.findSome?_cons, List.find?_cons, goodDockerLine,
        h1, ih]

/-- C8 amended: container detection returns `(false, "")` when the cgroup
file is unreadable or mentions no docker marker; when the marker is
present, the identifier is the 12-character truncation of the last
`/`-segment of the **first marker line whose last segment has at least 12
characters**, and `"unknown"` when no line qualifies (e.g. when the
matching line's last segment is shorter — `c8_counterexample`). -/
theorem c8_docker_amended :
    (isDockerProcess none = (false, "")) ∧
    (∀ content, strContains content "docker" = false →
      isDockerProcess (some content) = (false, "")) ∧
    (∀ content line, strContains content "docker" = true →
      (goSplit content '\n').find? goodDockerLine = some line →
      isDockerProcess (some content) =
        (true, strTake ((goSplit line '/').getLast?.getD "") 12)) ∧
    (∀ content, strContains content "docker" = true →
      (goSplit content '\n').find? goodDockerLine = none →
      isDockerProcess (some content) = (true, "unknown")) := by
  refine ⟨rfl, ?_, ?_, ?_⟩
  · intro content h
    simp [isDockerProcess, h]
  · intro content line h1 h2
    simp [isDockerProcess, h1, findDockerId_eq, h2]
  · intro content h1 h2
    simp [isDockerProcess, h1, findDockerId_eq, h2]

/-- C8 amended, witness: a cgroup line with a 16-character container id is
truncated to its first 12 characters. -/
theorem c8_docker_amended_witness :
    isDockerProcess (some "2:net:/docker/0123456789abcdef") =
      (true, "0123456789ab") := by
  have h := c8_docker_amended.2.2.1 "2:net:/docker/0123456789abcdef"
    "2:net:/docker/0123456789abcdef" (by decide) (by decide)
  exact h.trans (by decide)

/-- The darwin working-directory loop touches only the project path. -/
theorem cwdFold_pid_port (fs : MarkerFs) :
    ∀ (ls : List String) (acc : Process),
      ((ls.foldl (darwinCwdStep fs) acc).pid = acc.pid) ∧
      ((ls.foldl (darwinCwdStep fs) acc).port = acc.port) := by
  intro ls
  induction ls with
  | nil => intro acc; exact ⟨rfl, rfl⟩
  | cons l t ih =>
    intro acc
    rw [List.foldl_cons]
    have hstep : (darwinCwdStep fs acc l).pid = acc.pid ∧
        (darwinCwdStep fs acc l).port = acc.port := by
      simp only [darwinCwdStep]
      split
      · split
        · exact ⟨rfl, rfl⟩
        · exact ⟨rfl, rfl⟩
      · exact ⟨rfl, rfl⟩
    obtain ⟨h1, h2⟩ := ih (darwinCwdStep fs acc l)
    exact ⟨h1.trans hstep.1, h2.trans hstep.2⟩

/-- Darwin enrichment never rewrites the identifying fields. -/
theorem darwinEnrich_pid_port (env : DarwinProcEnv) (p : Process) :
    (darwinEnrich env p).pid = p.pid ∧ (darwinEnrich env p).port = p.port := by
  obtain ⟨psInfo, psLstart, lsofCwd, now, fs⟩ := env
  cases psInfo with
  | none => exact ⟨rfl, rfl⟩
  | some out =>
    simp only [darwinEnrich]
    repeat' split
    all_goals
      first
        | exact ⟨rfl, rfl⟩
        | exact ⟨(cwdFold_pid_port fs _ _).1, (cwdFold_pid_port fs _ _).2⟩

/-- The darwin accumulation loop keeps its keys distinct and equal to the
(pid, port) of the stored record. -/
theorem darwinLsofLoop_pairs (envOf : Int → DarwinProcEnv) :
    ∀ (lines : List String) (acc : List ((Int × Int) × Process)),
      (∀ kv ∈ acc, kv.1 = (kv.2.pid, kv.2.port)) →
      List.Pairwise (fun a b => a.1 ≠ b.1) acc →
      (∀ kv ∈ darwinLsofLoop envOf lines acc, kv.1 = (kv.2.pid, kv.2.port)) ∧
      List.Pairwise (fun a b => a.1 ≠ b.1) (darwinLsofLoop envOf lines acc) := by
  intro lines
  induction lines with
  | nil => intro acc h1 h2; exact ⟨h1, h2⟩
  | cons line rest ih =>
    intro acc h1 h2
    simp only [darwinLsofLoop]
    cases hp : darwinParseLine line with
    | none => exact ih acc h1 h2
    | some v =>
      obtain ⟨nm, pid, port⟩ := v
      dsimp only
      by_cases hmem : (acc.any (fun kv => kv.1 == (pid, port))) = true
      · rw [if_pos hmem]
        exact ih acc h1 h2
      · rw [if_neg hmem]
        apply ih
        · intro kv hkv
          rcases List.mem_append.1 hkv with hin | hin
          · exact h1 kv hin
          · rw [List.mem_singleton] at hin
            subst hin
            have hep := darwinEnrich_pid_port (envOf pid) (freshProcess pid nm port)
            simp only [hep.1, hep.2]
            rfl
        · rw [List.pairwise_append]
          refine ⟨h2, List.pairwise_singleton _ _, ?_⟩
          intro a ha b hb
          rw [List.mem_singleton] at hb
          subst hb
          intro hcontra
          apply hmem
          rw [List.any_eq_true]
          exact ⟨a, ha, by simp [hcontra]⟩

/-- C2 amended: the darwin (and, by the same keyed-map scheme, Windows)
`listAll` never returns two records with the same (pid, port) — a
dual-stack bind collapses to one record.  The Linux `ss`/`netstat` paths
have no such map and can return duplicates (`c2_counterexample`). -/
theorem c2_dedup_amended (envOf : Int → DarwinProcEnv) (output : String) :
    List.Pairwise (fun p q : Process => ¬(p.pid = q.pid ∧ p.port = q.port))
      (darwinParseLsofMultiple envOf output) := by
  simp only [darwinParseLsofMultiple]
  split
  · exact List.Pairwise.nil
  · obtain ⟨hkeys, hpw⟩ := darwinLsofLoop_pairs envOf
      ((goSplit (goTrimSpace output) '\n').drop 1) [] (by simp) List.Pairwise.nil
    rw [List.pairwise_map]
    refine List.Pairwise.imp_of_mem ?_ hpw
    intro a b ha hb hR hcontra
    apply hR
    rw [hkeys a ha, hkeys b hb]
    simp [hcontra.1, hcontra.2]

/-- `strings.Split` never returns an empty list. -/
theorem splitChar_ne_nil (sep : Char) (l : List Char) : splitChar sep l ≠ [] := by
  cases l with
  | nil => simp [splitChar]
  | cons c cs =>
    simp only [splitChar]
    cases h : splitChar sep cs with
    | nil => simp
    | cons f fs =>
      by_cases hc : (c == sep) = true <;> simp [hc]

/-- Splitting a list that starts with the separator. -/
theorem splitChar_sepCons (sep : Char) (y : List Char) :
    splitChar sep (sep :: y) = [] :: splitChar sep y := by
  simp only [splitChar]
  cases h : splitChar sep y with
  | nil => exact absurd h (splitChar_ne_nil sep y)
  | cons f fs => simp

/-- Splitting a separator-free list. -/
theorem splitChar_no_sep (sep : Char) :
    ∀ l : List Char, sep ∉ l → splitChar sep l = [l] := by
  intro l
  induction l with
  | nil => intro _; rfl
  | cons c cs ih =>
    intro h
    have hc : ¬(c == sep) = true := by
      simp only [beq_iff_eq]
      intro he
      exact h (he ▸ List.mem_cons_self c cs)
    have hcs : sep ∉ cs := fun hm => h (List.mem_cons_of_mem _ hm)
    simp only [splitChar, ih hcs]
    simp [hc]

/-- Splitting around the first separator occurrence. -/
theorem splitChar_append_sep (sep : Char) :
    ∀ x y : List Char, sep ∉ x →
      splitChar sep (x ++ sep :: y) = x :: splitChar sep y := by
  intro x
  induction x with
  | nil => intro y _; exact splitChar_sepCons sep y
  | cons c cs ih =>
    intro y h
    have hc : ¬(c == sep) = true := by
      simp only [beq_iff_eq]
      intro he
      exact h (he ▸ List.mem_cons_self c cs)
    have hcs : sep ∉ cs := fun hm => h (List.mem_cons_of_mem _ hm)
    rw [List.cons_append]
    simp only [splitChar]
    rw [ih y hcs]
    simp [hc]

/-- The fold that builds `joinAbs`, characterised on characters. -/
theorem joinAbs_foldl_toList :
    ∀ (segs : List String) (acc : String),
      (segs.foldl (fun a s => a ++ "/" ++ s) acc).toList =
        acc.toList ++ joinAbsChars segs := by
  intro segs
  induction segs with
  | nil => intro acc; simp [joinAbsChars]
  | cons s t ih =>
    intro acc
    rw [List.foldl_cons, ih]
    have h1 : (acc ++ "/" ++ s).toList = (acc.toList ++ ['/']) ++ s.toList := rfl
    have h2 : joinAbsChars (s :: t) = '/' :: (s.toList ++ joinAbsChars t) := rfl
    rw [h1, h2]
    simp

/-- The characters of a non-empty absolute path. -/
theorem joinAbs_toList (segs : List String) (h : segs ≠ []) :
    (joinAbs segs).toList = joinAbsChars segs := by
  cases segs with
  | nil => exact absurd rfl h
  | cons s t =>
    show ((s :: t).foldl (fun a u => a ++ "/" ++ u) "").toList = _
    rw [joinAbs_foldl_toList]
    rfl

/-- Splitting the tail of an absolute path: one chunk per segment. -/
theorem splitChar_segsTail :
    ∀ (t : List String) (s : String), '/' ∉ s.toList → (∀ u ∈ t, '/' ∉ u.toList) →
      splitChar '/' (s.toList ++ joinAbsChars t) = s.toList :: t.map String.toList := by
  intro t
  induction t with
  | nil =>
    intro s hs _
    show splitChar '/' (s.toList ++ []) = [s.toList]
    rw [List.append_nil]
    exact splitChar_no_sep '/' _ hs
  | cons u t2 ih =>
    intro s hs hall
    show splitChar '/' (s.toList ++ ('/' :: (u.toList ++ joinAbsChars t2))) = _
    rw [splitChar_append_sep '/' _ _ hs,
      ih u (hall u (by simp)) (fun v hv => hall v (by simp [hv]))]
    rfl

/-- Splitting a whole non-empty absolute path: a leading empty chunk, then
one chunk per segment. -/
theorem splitChar_joinAbsChars (segs : List String) (h : segs ≠ [])
    (hcl : ∀ u ∈ segs, '/' ∉ u.toList) :
    splitChar '/' (joinAbsChars segs) = [] :: segs.map String.toList := by
  cases segs with
  | nil => exact absurd rfl h
  | cons s t =>
    show splitChar '/' ('/' :: (s.toList ++ joinAbsChars t)) = _
    rw [splitChar_sepCons,
      splitChar_segsTail t s (hcl s (by simp)) (fun v hv => hcl v (by simp [hv]))]
    rfl

/-- Unpacking a `cleanSeg` fact. -/
theorem cleanSeg_spec (u : String) (h : cleanSeg u = true) :
    u ≠ "" ∧ '/' ∉ u.toList := by
  simp only [cleanSeg, Bool.and_eq_true, decide_eq_true_eq, Bool.not_eq_true'] at h
  exact ⟨h.1, by simpa using h.2⟩

/-- Go `strings.Split` of a clean non-empty absolute path on `/`: the empty
chunk before the leading separator, then the segments. -/
theorem goSplit_joinAbs (segs : List String) (h : segs ≠ [])
    (hclean : segs.all cleanSeg = true) :
    goSplit (joinAbs segs) '/' = "" :: segs := by
  have hcl : ∀ u ∈ segs, '/' ∉ u.toList := fun u hu =>
    (cleanSeg_spec u (List.all_eq_true.1 hclean u hu)).2
  show (splitChar '/' (joinAbs segs).toList).map String.mk = _
  rw [joinAbs_toList segs h, splitChar_joinAbsChars segs h hcl]
  have hcomp : String.mk ∘ String.toList = id := funext fun u => rfl
  rw [List.map_cons, List.map_map, hcomp, List.map_id]

/-- `filepath.Base` of a clean absolute path is its last segment (the root
name for the root). -/
theorem goBase_joinAbs (segs : List String) (hclean : segs.all cleanSeg = true) :
    goBase (joinAbs segs) = lastSegOr segs := by
  rcases List.eq_nil_or_concat segs with rfl | ⟨init, lastSeg, hsegs⟩
  · decide
  rw [List.concat_eq_append] at hsegs
  subst hsegs
  have hne : init ++ [lastSeg] ≠ [] := by simp
  have hcl : ∀ u ∈ init ++ [lastSeg], '/' ∉ u.toList := fun u hu =>
    (cleanSeg_spec u (List.all_eq_true.1 hclean u hu)).2
  have hlastClean := cleanSeg_spec lastSeg
    (List.all_eq_true.1 hclean lastSeg (by simp))
  have hfold : ∀ (a : List String) (X : List Char),
      a.foldr (fun s r => '/' :: s.toList ++ r) X = joinAbsChars a ++ X := by
    intro a
    induction a with
    | nil => intro X; rfl
    | cons v vs ihv =>
      intro X
      rw [List.foldr_cons, ihv X]
      show ('/' :: v.toList) ++ (joinAbsChars vs ++ X) =
        (('/' :: v.toList) ++ joinAbsChars vs) ++ X
      rw [List.append_assoc]
  have hdata : (joinAbs (init ++ [lastSeg])).toList =
      joinAbsChars init ++ ('/' :: lastSeg.toList) := by
    rw [joinAbs_toList _ hne]
    show (init ++ [lastSeg]).foldr (fun s r => '/' :: s.toList ++ r) [] = _
    rw [List.foldr_append, hfold init]
    congr 1
    show ('/' :: lastSeg.toList) ++ [] = '/' :: lastSeg.toList
    exact List.append_nil _
  have hlne : lastSeg.toList ≠ [] := by
    intro he
    apply hlastClean.1
    have h3 : lastSeg = String.mk lastSeg.toList := rfl
    rw [h3, he]
  obtain ⟨c, cr, hrev⟩ : ∃ c cr, lastSeg.toList.reverse = c :: cr := by
    cases hr : lastSeg.toList.reverse with
    | nil =>
      have h4 := congrArg List.reverse hr
      simp at h4
      exact absurd h4 hlne
    | cons c cr => exact ⟨c, cr, rfl⟩
  have hcmem : c ∈ lastSeg.toList :=
    List.mem_reverse.1 (hrev ▸ List.mem_cons_self c cr)
  have hcne : ¬(c == '/') = true := by
    simp only [beq_iff_eq]
    intro he
    subst he
    exact hlastClean.2 hcmem
  have hSrev : (joinAbs (init ++ [lastSeg])).toList.reverse =
      c :: (cr ++ '/' :: (joinAbsChars init).reverse) := by
    rw [hdata, List.reverse_append, List.reverse_cons, hrev]
    simp [List.append_assoc]
  have hToNe : (joinAbs (init ++ [lastSeg])).toList ≠ [] := by
    rw [hdata]
    rcases joinAbsChars init with _ | ⟨d, dr⟩ <;> simp
  have hne2 : joinAbs (init ++ [lastSeg]) ≠ "" := by
    intro he
    rw [he] at hToNe
    exact hToNe rfl
  have hdropRev : ((joinAbs (init ++ [lastSeg])).toList.reverse.dropWhile
      (· == '/')).reverse = (joinAbs (init ++ [lastSeg])).toList := by
    rw [hSrev, List.dropWhile_cons, if_neg hcne, ← hSrev, List.reverse_reverse]
  simp only [goBase, if_neg hne2]
  rw [hdropRev, if_neg hToNe, joinAbs_toList _ hne,
    splitChar_joinAbsChars _ hne hcl]
  have hhead : (([] :: (init ++ [lastSeg]).map String.toList)).reverse =
      lastSeg.toList :: ((init.map String.toList).reverse ++ [([] : List Char)]) := by
    simp
  rw [hhead]
  show String.mk lastSeg.toList = lastSegOr (init ++ [lastSeg])
  have hmk : String.mk lastSeg.toList = lastSeg := rfl
  rw [hmk]
  simp [lastSegOr, List.getLast?_concat]


/-- C5 amended: whenever some directory on the inspected ancestor chain —
the start directory, its parent, and so on down to depth one, with the
filesystem root included only when the walk starts there — contains a
project marker, `detectProject` returns the first (closest-to-start) such
directory.  (The original claim also covered a marker that sits only at
the root of a deeper path; `c5_counterexample` shows the walk misses it.) -/
theorem c5_detectProject_amended (pid : Int) (segs : List String) (fs : MarkerFs)
    (d : List String)
    (h : (ancestorChain segs).find? (fun a => dirHasMarker fs a) = some d) :
    detectProject pid (.abs segs) fs = joinAbs d := by
  unfold ancestorChain at h
  simp only [detectProject, walkRev_eq_find, h]

/-- C5 amended, witness: the specification's own scenario — start path
`/home/u/projects/app/src`, marker at `/home/u/projects/app/package.json` —
resolves to `/home/u/projects/app`. -/
theorem c5_detectProject_amended_witness :
    detectProject 1 (.abs ["home", "u", "projects", "app", "src"]) appFs =
      "/home/u/projects/app" :=
  (c5_detectProject_amended 1 ["home", "u", "projects", "app", "src"] appFs
    ["home", "u", "projects", "app"] (by decide)).trans (by decide)

/-- C6 amended: with no marker on the inspected chain, `detectProject`
returns the last two segments joined only when the path string contains
`home` or `Users` **and** the path has at least four segments (Go's
`len(parts) > 4` on the `/`-split); in every other case — including short
home paths such as `/home/u/app`, see `c6_counterexample` — it returns
just the final segment. -/
theorem c6_fallback_amended (pid : Int) (segs : List String) (fs : MarkerFs)
    (hclean : segs.all cleanSeg = true)
    (hnomark : (ancestorChain segs).all (fun d => !dirHasMarker fs d) = true) :
    detectProject pid (.abs segs) fs =
      if (strContains (joinAbs segs) "home" || strContains (joinAbs segs) "Users")
          = true ∧ 4 ≤ segs.length then
        joinLastTwo segs
      else lastSegOr segs := by
  unfold ancestorChain at hnomark
  have hfind : (chainRev segs.reverse).find? (fun d => dirHasMarker fs d) = none :=
    find?_none_of_all_not _ _ hnomark
  simp only [detectProject, walkRev_eq_find, hfind]
  by_cases hc : (strContains (joinAbs segs) "home" ||
      strContains (joinAbs segs) "Users") = true
  · have hne : segs ≠ [] := by
      rintro rfl
      rw [show joinAbs [] = "/" from rfl] at hc
      rcases Bool.or_eq_true_iff.1 hc with hx | hx <;> exact absurd hx (by decide)
    rw [if_pos hc, goSplit_joinAbs segs hne hclean]
    by_cases hlen : 4 ≤ segs.length
    · have hlt : 4 < ("" :: segs).length := by
        simp only [List.length_cons]
        omega
      rw [if_pos hlt, if_pos ⟨hc, hlen⟩]
      have hdrop : ("" :: segs).drop (("" :: segs).length - 2) =
          segs.drop (segs.length - 2) := by
        have h1 : ("" :: segs).length - 2 = (segs.length - 2) + 1 := by
          simp only [List.length_cons]
          omega
        rw [h1, List.drop_succ_cons]
      rw [hdrop]
      have h2 : (segs.drop (segs.length - 2)).length = 2 := by
        rw [List.length_drop]
        omega
      rcases hd : segs.drop (segs.length - 2) with _ | ⟨a, _ | ⟨b, _ | ⟨e, t⟩⟩⟩ <;>
        rw [hd] at h2 <;> simp at h2
      have ha : a ∈ segs := List.mem_of_mem_drop (hd ▸ List.mem_cons_self a [b])
      have hb : b ∈ segs :=
        List.mem_of_mem_drop (hd ▸ List.mem_cons_of_mem a (List.mem_cons_self b []))
      have hac := cleanSeg_spec a (List.all_eq_true.1 hclean a ha)
      have hbc := cleanSeg_spec b (List.all_eq_true.1 hclean b hb)
      dsimp only
      simp only [joinLastTwo, hd]
      simp only [goJoin2, if_neg hac.1, if_neg hbc.1]
    · have hnlt : ¬(4 < ("" :: segs).length) := by
        simp only [List.length_cons]
        omega
      rw [if_neg hnlt, if_neg (fun hand => hlen hand.2)]
      exact goBase_joinAbs segs hclean
  · rw [if_neg hc, if_neg (fun hand => hc hand.1)]
    exact goBase_joinAbs segs hclean

/-- C6 amended, witness: the specification's own scenario — `/var/data/x`,
no markers, no home segment — yields `x`. -/
theorem c6_fallback_amended_witness :
    detectProject 1 (.abs ["var", "data", "x"]) noMarkerFs = "x" := by
  have h := c6_fallback_amended 1 ["var", "data", "x"] noMarkerFs
    (by decide) (by decide)
  rw [h]
  decide

/-- C10: in the interactive list, when killing the selected process fails,
the in-memory process list, the table rows and the cursor are unchanged and
only the error message is set; the selected record is removed (and the rows
rebuilt) exactly when the kill succeeds. -/
theorem c10_kill_failure_frame (killRes : Process → Option String) (now : Nat)
    (m : UIModel) (h : m.cursor < m.processes.length) :
    (∀ e, killRes (m.processes.getD m.cursor (freshProcess 0 "" 0)) = some e →
      (handleKillKey killRes now m).processes = m.processes ∧
      (handleKillKey killRes now m).rows = m.rows ∧
      (handleKillKey killRes now m).cursor = m.cursor ∧
      (handleKillKey killRes now m).message = "❌ Failed to kill process: " ++ e) ∧
    (killRes (m.processes.getD m.cursor (freshProcess 0 "" 0)) = none →
      (handleKillKey killRes now m).processes = m.processes.eraseIdx m.cursor ∧
      (handleKillKey killRes now m).rows =
        (m.processes.eraseIdx m.cursor).map (processToRow now)) := by
  have hg : 0 < m.processes.length ∧ m.cursor < m.processes.length :=
    ⟨Nat.lt_of_le_of_lt (Nat.zero_le _) h, h⟩
  constructor
  · intro e he
    unfold handleKillKey
    rw [if_pos hg]
    simp only [he]
    refine ⟨?_, ?_, ?_, ?_⟩ <;> trivial
  · intro he
    unfold handleKillKey
    rw [if_pos hg]
    simp only [he]
    refine ⟨?_, ?_⟩ <;> trivial

/-- C10, witness: a failing kill on a one-row model leaves the rows as they
were. -/
theorem c10_kill_failure_frame_witness :
    (handleKillKey (fun _ => some "operation not permitted") 5 uiModel0).rows =
      uiModel0.rows :=
  ((c10_kill_failure_frame (fun _ => some "operation not permitted") 5 uiModel0
    (by decide)).1 "operation not permitted" rfl).2.1
